import Mathlib

/-
Shallow embedding of the marker rendering and caching subsystem of the
mapnik repository (files src/agg/process_markers_symbolizer.cpp,
src/renderer_common/render_markers_symbolizer.cpp, src/geometry/interior.cpp).
Doubles are modelled as rationals; external rasterization primitives and
repository code outside the provided sources are modelled as oracle
function parameters.
-/

namespace Mapnik

/-! Generic model of the std::map based caches.

All three caches (rendered images, attributes, ellipses) are static
std::map objects, represented here as association lists kept sorted by a
boolean strict order lt on the keys: the head of the list corresponds to
map.begin(), the least key of the ordered map. -/

/-- Lookup in the map, mirroring std::map::find: returns the mapped value
when the key is present. -/
def cFind {K V : Type} [DecidableEq K] (m : List (K × V)) (k : K) : Option V :=
  match m with
  | [] => none
  | (k2, v) :: rest => if k = k2 then some v else cFind rest k

/-- Order-preserving insertion of a fresh key into the sorted entry list. -/
def insertSorted {K V : Type} (lt : K → K → Bool) (k : K) (v : V) :
    List (K × V) → List (K × V)
  | [] => [(k, v)]
  | e :: es => if lt k e.1 then (k, v) :: e :: es else e :: insertSorted lt k v es

/-- Model of std::map::emplace: inserts only when the key is absent. -/
def cEmplace {K V : Type} [DecidableEq K] (lt : K → K → Bool)
    (m : List (K × V)) (k : K) (v : V) : List (K × V) :=
  match cFind m k with
  | some _ => m
  | none => insertSorted lt k v m

/-- Model of map[key] = value: replaces the mapped value when the key is
present, inserts otherwise. -/
def cAssign {K V : Type} [DecidableEq K] (lt : K → K → Bool)
    (m : List (K × V)) (k : K) (v : V) : List (K × V) :=
  match cFind m k with
  | some _ => m.map (fun e => if e.1 = k then (k, v) else e)
  | none => insertSorted lt k v m

/-- Bounded-cache insertion used by the rendered-image and ellipse caches:
if (cache.size() > maxSize) cache.erase(cache.begin()); cache.emplace(key, value). -/
def cacheInsert {K V : Type} [DecidableEq K] (lt : K → K → Bool) (maxSize : ℕ)
    (m : List (K × V)) (k : K) (v : V) : List (K × V) :=
  cEmplace lt (if maxSize < m.length then m.tail else m) k v

/-- Bounded-cache insertion used by the attribute cache:
if (cache.size() > maxSize) cache.erase(cache.begin()); cache[key] = value. -/
def cacheStore {K V : Type} [DecidableEq K] (lt : K → K → Bool) (maxSize : ℕ)
    (m : List (K × V)) (k : K) (v : V) : List (K × V) :=
  cAssign lt (if maxSize < m.length then m.tail else m) k v

theorem length_insertSorted {K V : Type} (lt : K → K → Bool) (k : K) (v : V) :
    ∀ m : List (K × V), (insertSorted lt k v m).length = m.length + 1 := by
  intro m
  induction m with
  | nil => rfl
  | cons e es ih =>
      simp only [insertSorted]
      split
      · simp
      · simp [ih]

theorem length_cEmplace_le {K V : Type} [DecidableEq K] (lt : K → K → Bool)
    (m : List (K × V)) (k : K) (v : V) :
    (cEmplace lt m k v).length ≤ m.length + 1 := by
  unfold cEmplace
  match h : cFind m k with
  | some _ => exact Nat.le_succ _
  | none => simp [length_insertSorted]

theorem length_cAssign_le {K V : Type} [DecidableEq K] (lt : K → K → Bool)
    (m : List (K × V)) (k : K) (v : V) :
    (cAssign lt m k v).length ≤ m.length + 1 := by
  unfold cAssign
  match h : cFind m k with
  | some _ => simp
  | none => simp [length_insertSorted]

/-- Appending at the end: when the new key is not lt-below any existing key,
sorted insertion places it at the end of the list. -/
theorem insertSorted_append {K V : Type} (lt : K → K → Bool) (k : K) (v : V) :
    ∀ m : List (K × V), (∀ e ∈ m, lt k e.1 = false) →
      insertSorted lt k v m = m ++ [(k, v)] := by
  intro m
  induction m with
  | nil => intro _; rfl
  | cons e es ih =>
      intro h
      have he : lt k e.1 = false := h e (List.mem_cons_self e es)
      simp only [insertSorted, he]
      simp only [Bool.false_eq_true, if_false, List.cons_append, List.cons.injEq, true_and]
      exact ih (fun e2 he2 => h e2 (List.mem_cons_of_mem e he2))

/-- Building a cache by inserting the keys kf 0, kf 1, ... in order,
each with value v, starting from the empty cache. -/
def buildSeq {K V : Type} [DecidableEq K] (lt : K → K → Bool) (maxSize : ℕ)
    (kf : ℕ → K) (v : V) : ℕ → List (K × V)
  | 0 => []
  | n + 1 => cacheInsert lt maxSize (buildSeq lt maxSize kf v n) (kf n) v

theorem cFind_map_none {K V : Type} [DecidableEq K] (kf : ℕ → K) (v : V) (k : K)
    (l : List ℕ) (hne : ∀ i ∈ l, k ≠ kf i) :
    cFind (l.map (fun i => (kf i, v))) k = none := by
  induction l with
  | nil => rfl
  | cons i is ih =>
      simp only [List.map_cons, cFind]
      rw [if_neg (hne i (List.mem_cons_self i is))]
      exact ih (fun j hj => hne j (List.mem_cons_of_mem i hj))

/-- With strictly increasing fresh keys and no more than maxSize + 1
insertions, the cache accumulates every inserted entry in order. -/
theorem buildSeq_eq_range {K V : Type} [DecidableEq K] (lt : K → K → Bool)
    (maxSize : ℕ) (kf : ℕ → K) (v : V)
    (hmono : ∀ i j : ℕ, i < j → lt (kf j) (kf i) = false ∧ kf j ≠ kf i) :
    ∀ n : ℕ, n ≤ maxSize + 1 →
      buildSeq lt maxSize kf v n = (List.range n).map (fun i => (kf i, v)) := by
  intro n
  induction n with
  | zero => intro _; rfl
  | succ n ih =>
      intro hn
      have hn' : n ≤ maxSize := Nat.lt_succ_iff.mp hn
      have hrec := ih (Nat.le_succ_of_le hn')
      simp only [buildSeq, hrec, cacheInsert]
      have hlen : ((List.range n).map (fun i => (kf i, v))).length = n := by simp
      rw [if_neg (by omega)]
      unfold cEmplace
      rw [cFind_map_none kf v (kf n) (List.range n)
        (fun i hi => (hmono i n (List.mem_range.mp hi)).2)]
      rw [insertSorted_append lt (kf n) v _
        (by
          intro e he
          rcases List.mem_map.mp he with ⟨i, hi, rfl⟩
          exact (hmono i n (List.mem_range.mp hi)).1)]
      rw [List.range_succ]
      simp

/-! Data model of the agg marker renderer
(src/agg/process_markers_symbolizer.cpp). -/

/-- Affine transform, mirroring agg::trans_affine with components
sx, shy, shx, sy, tx, ty; doubles modelled as rationals. -/
structure trans_affine where
  sx : ℚ
  shy : ℚ
  shx : ℚ
  sy : ℚ
  tx : ℚ
  ty : ℚ
deriving DecidableEq, Repr

/-- Mirror of agg::trans_affine::translate, which adds to the translation
components. -/
def trans_affine.translate (t : trans_affine) (x y : ℚ) : trans_affine :=
  { t with tx := t.tx + x, ty := t.ty + y }

/-- Axis-aligned bounding box, mirroring mapnik::box2d of double. -/
structure box2d where
  minx : ℚ
  miny : ℚ
  maxx : ℚ
  maxy : ℚ
deriving DecidableEq, Repr

def box2d.width (b : box2d) : ℚ := b.maxx - b.minx

def box2d.height (b : box2d) : ℚ := b.maxy - b.miny

/-- Mirror of mapnik::box2d::center. -/
def box2d.center (b : box2d) : ℚ × ℚ := ((b.minx + b.maxx) / 2, (b.miny + b.maxy) / 2)

/-- Gradient kind of an svg paint attribute (mapnik::gradient_e). -/
inductive gradient_e where
  | NO_GRADIENT
  | LINEAR
  | RADIAL
deriving DecidableEq, Repr

def gradient_e.toNat : gradient_e → ℕ
  | .NO_GRADIENT => 0
  | .LINEAR => 1
  | .RADIAL => 2

/-- Fields of svg::path_attributes that the marker caching code reads or
writes; the remaining paint fields do not influence the modelled logic. -/
structure path_attributes where
  fill_flag : Bool
  stroke_flag : Bool
  fill_gradient : gradient_e
  stroke_gradient : gradient_e
  stroke_width : ℚ
deriving DecidableEq, Repr

/-- Strict order on Bool used by std::tuple comparison: false before true. -/
def boolLtB (a b : Bool) : Bool := !a && b

/-- Strict order on gradient kinds through their numeric encoding. -/
def gradLtB (a b : gradient_e) : Bool := decide (a.toNat < b.toNat)

/-- Strict order on rationals as a boolean function. -/
def qLtB (a b : ℚ) : Bool := decide (a < b)

/-- Strict order on integers as a boolean function. -/
def intLtB (a b : ℤ) : Bool := decide (a < b)

/-- Strict order on naturals as a boolean function, modelling pointer
order where map keys are addresses. -/
def natLtB (a b : ℕ) : Bool := decide (a < b)

/-- Lexicographic combination of two strict boolean orders, the shape of
std::tuple and std::pair operator less-than. -/
def lexB {A B : Type} [DecidableEq A] (la : A → A → Bool) (lb : B → B → Bool) :
    A × B → A × B → Bool :=
  fun x y => la x.1 y.1 || (x.1 == y.1 && lb x.2 y.2)

/-- Comparison key tuple of path_attributes: the modelled fields in order. -/
def attr_key_tuple (a : path_attributes) : Bool × Bool × gradient_e × gradient_e × ℚ :=
  (a.fill_flag, a.stroke_flag, a.fill_gradient, a.stroke_gradient, a.stroke_width)

/-- Strict lexicographic order on path_attributes modelling the comparison
used by the std::map key (the concrete comparator lives outside the
provided sources; any strict total order gives the same cache behavior). -/
def attrLt (a b : path_attributes) : Bool :=
  lexB boolLtB (lexB boolLtB (lexB gradLtB (lexB gradLtB qLtB)))
    (attr_key_tuple a) (attr_key_tuple b)

/-- Identity and bounding box of an svg_storage object; the id field stands
for the svg_path_ptr pointer identity used as part of the cache key. -/
structure svg_storage where
  id : ℕ
  bounding_box : box2d
deriving DecidableEq, Repr

/-- Key of the rendered-image cache:
std::tuple of svg_path_ptr, sample index and attrs[0]. -/
abbrev img_cache_key_t := ℕ × ℤ × path_attributes

/-- Lexicographic strict order on the rendered-image cache key, mirroring
the std::tuple comparison (pointer order modelled by the id order). -/
def imgKeyLt (a b : img_cache_key_t) : Bool :=
  lexB natLtB (lexB intLtB attrLt) a b

/-- Raster image, mirroring mapnik::image_rgba8; pixels are the 32-bit
words compared against zero by the transparency check. -/
structure image_rgba8 where
  width : ℕ
  height : ℕ
  pixels : List ℕ
deriving DecidableEq, Repr

/-- Subset of markers_dispatch_params read by render_marker. -/
structure markers_dispatch_params where
  scale_factor : ℚ
  opacity : ℚ
  snap_to_pixels : Bool
deriving DecidableEq, Repr

/-- Arguments of a render_vector_marker call into a scratch patch buffer;
the actual rasterization is an external agg primitive, supplied as an
oracle of this type. Opacity is fixed to 1.0 by the source at this call. -/
structure scratch_args where
  attrs : List path_attributes
  bbox : box2d
  tr : trans_affine
  snap_to_pixels : Bool
  canvas_width : ℤ
  canvas_height : ℤ
deriving DecidableEq, Repr

/-- Observable rendering effects issued into the destination surface:
either a direct vector rasterization (the uncached path) or a blit of a
cached raster patch via render_raster_marker. -/
inductive render_effect where
  | render_vector (attrs : List path_attributes) (bbox : box2d) (tr : trans_affine)
      (opacity : ℚ) (snap_to_pixels : Bool)
  | render_raster (img : image_rgba8) (tr : trans_affine) (opacity : ℚ)
      (scale_factor : ℚ) (snap_to_pixels : Bool)
deriving DecidableEq, Repr

/-- Maximum number of images to cache (static constant cache_size). -/
def cache_size : ℕ := 4096

/-- Subpixel precision constant (static constant sampling_rate). -/
def sampling_rate : ℤ := 8

/-- Rendered-image cache state: the static cached_images_ map. -/
abbrev ImgCache := List (img_cache_key_t × (Option image_rgba8 × Option image_rgba8))

/-- Stroke margin: abs(stroke_width) when the shape strokes, else 0. -/
def stroke_margin (a : path_attributes) : ℚ :=
  if a.stroke_flag || a.stroke_gradient != .NO_GRADIENT then |a.stroke_width| else 0

/-- Canvas x origin: floor of bounding box minx minus the margin. -/
def x0_of (src : svg_storage) (margin : ℚ) : ℚ :=
  (⌊src.bounding_box.minx - margin⌋ : ℤ)

/-- Canvas y origin: floor of bounding box miny minus the margin. -/
def y0_of (src : svg_storage) (margin : ℚ) : ℚ :=
  (⌊src.bounding_box.miny - margin⌋ : ℤ)

/-- Fractional part of a translation component: t minus floor of t. -/
def frac_of (t : ℚ) : ℚ := t - (⌊t⌋ : ℤ)

/-- Sample index of a subpixel offset: quantize each fractional component
into sampling_rate buckets by flooring and combine row-major. -/
def sample_idx_of (tx ty : ℚ) : ℤ :=
  let dx := frac_of tx
  let dy := frac_of ty
  let sample_x := ⌊dx * (sampling_rate : ℚ)⌋
  let sample_y := ⌊dy * (sampling_rate : ℚ)⌋
  sample_y * sampling_rate + sample_x

/-- Rendered-image cache key of a placement. -/
def img_cache_key (src : svg_storage) (a0 : path_attributes) (marker_tr : trans_affine) :
    img_cache_key_t :=
  (src.id, sample_idx_of marker_tr.tx marker_tr.ty, a0)

/-- Scratch canvas width: ceil of bbox width plus twice the margin, plus 2. -/
def canvas_width_of (src : svg_storage) (margin : ℚ) : ℤ :=
  ⌈src.bounding_box.width + 2 * margin⌉ + 2

/-- Scratch canvas height: ceil of bbox height plus twice the margin, plus 2. -/
def canvas_height_of (src : svg_storage) (margin : ℚ) : ℤ :=
  ⌈src.bounding_box.height + 2 * margin⌉ + 2

/-- Local transform used to render the patch: the placement transform with
its translation reset to the fractional offset minus the canvas origin. -/
def local_tr_of (marker_tr : trans_affine) (src : svg_storage) (margin : ℚ) :
    trans_affine :=
  { marker_tr with
      tx := frac_of marker_tr.tx - x0_of src margin,
      ty := frac_of marker_tr.ty - y0_of src margin }

/-- Blitting transform: the placement transform translated by the canvas
origin minus the fractional offset. -/
def blit_tr_of (marker_tr : trans_affine) (src : svg_storage) (margin : ℚ) :
    trans_affine :=
  marker_tr.translate (x0_of src margin - frac_of marker_tr.tx)
    (y0_of src margin - frac_of marker_tr.ty)

/-- Attribute copy used for the fill patch: stroke disabled on record 0. -/
def disable_stroke (attrs : List path_attributes) : List path_attributes :=
  match attrs with
  | [] => []
  | a :: rest => { a with stroke_flag := false, stroke_gradient := .NO_GRADIENT } :: rest

/-- Attribute copy used for the stroke patch: fill disabled on record 0. -/
def disable_fill (attrs : List path_attributes) : List path_attributes :=
  match attrs with
  | [] => []
  | a :: rest => { a with fill_flag := false, fill_gradient := .NO_GRADIENT } :: rest

/-- Transparency test: all pixel words equal zero. -/
def img_all_zero (img : image_rgba8) : Bool := img.pixels.all (fun p => p == 0)

/-- Fill patch of a cache miss: rendered only when the shape fills, and
discarded (stored absent) when the rendered pixels are all zero. -/
def make_fill_img (rasterize : scratch_args → image_rgba8) (src : svg_storage)
    (a0 : path_attributes) (attrs : List path_attributes) (tr_local : trans_affine)
    (w h : ℤ) (snap : Bool) : Option image_rgba8 :=
  if a0.fill_flag || a0.fill_gradient != .NO_GRADIENT then
    let img := rasterize ⟨disable_stroke attrs, src.bounding_box, tr_local, snap, w, h⟩
    if img_all_zero img then none else some img
  else none

/-- Stroke patch of a cache miss, symmetric to the fill patch. -/
def make_stroke_img (rasterize : scratch_args → image_rgba8) (src : svg_storage)
    (a0 : path_attributes) (attrs : List path_attributes) (tr_local : trans_affine)
    (w h : ℤ) (snap : Bool) : Option image_rgba8 :=
  if a0.stroke_flag || a0.stroke_gradient != .NO_GRADIENT then
    let img := rasterize ⟨disable_fill attrs, src.bounding_box, tr_local, snap, w, h⟩
    if img_all_zero img then none else some img
  else none

/-- Blit of an optional patch: an absent patch issues no effect. -/
def opt_blit (o : Option image_rgba8) (tr : trans_affine)
    (params : markers_dispatch_params) : List render_effect :=
  match o with
  | none => []
  | some img => [.render_raster img tr params.opacity params.scale_factor params.snap_to_pixels]

/-- Model of agg_markers_renderer_context::render_marker for vector (svg)
markers: the cached path applies only to single-record attribute sets
under a transform with unit scale and zero shear; otherwise the marker is
rasterized directly into the destination. Returns the updated cache and
the list of effects issued into the destination. -/
def render_marker_svg (rasterize : scratch_args → image_rgba8) (src : svg_storage)
    (attrs : List path_attributes) (params : markers_dispatch_params)
    (marker_tr : trans_affine) (cache : ImgCache) : ImgCache × List render_effect :=
  match attrs with
  | [a0] =>
    if marker_tr.sx = 1 ∧ marker_tr.sy = 1 ∧ marker_tr.shx = 0 ∧ marker_tr.shy = 0 then
      let margin := stroke_margin a0
      let key := img_cache_key src a0 marker_tr
      let found :=
        match cFind cache key with
        | some v => (v, cache)
        | none =>
          let w := canvas_width_of src margin
          let h := canvas_height_of src margin
          let tr_local := local_tr_of marker_tr src margin
          let fill_img := make_fill_img rasterize src a0 attrs tr_local w h
            params.snap_to_pixels
          let stroke_img := make_stroke_img rasterize src a0 attrs tr_local w h
            params.snap_to_pixels
          ((fill_img, stroke_img),
            cacheInsert imgKeyLt cache_size cache key (fill_img, stroke_img))
      let blit_tr := blit_tr_of marker_tr src margin
      (found.2, opt_blit found.1.1 blit_tr params ++ opt_blit found.1.2 blit_tr params)
    else
      (cache, [.render_vector attrs src.bounding_box marker_tr params.opacity
        params.snap_to_pixels])
  | _ =>
    (cache, [.render_vector attrs src.bounding_box marker_tr params.opacity
      params.snap_to_pixels])

/-! Attribute resolution cache and ellipse cache
(src/renderer_common/render_markers_symbolizer.cpp). -/

/-- Value stored under a symbolizer property key: either a literal value or
a dynamic expression (mapnik symbolizer_base::value_type). -/
inductive property_value where
  | literal (v : ℤ)
  | expression (e : ℕ)
deriving DecidableEq, Repr

/-- Mirror of mapnik::is_expression on a property value. -/
def is_expression : property_value → Bool
  | .literal _ => false
  | .expression _ => true

/-- Property map of a symbolizer (symbolizer_base::cont_type), an ordered
map from property keys to property values. -/
abbrev properties_t := List (ℕ × property_value)

/-- Resolved attribute set (the svg_attribute_type behind svg_attribute_ptr). -/
abbrev svg_attribute_t := List path_attributes

/-- Attribute cache state: the static cached_attributes_ map from the
symbolizer address (modelled as a natural) to the resolved attribute set
paired with the property map snapshotted at insertion time. -/
abbrev AttrCache := List (ℕ × (svg_attribute_t × properties_t))

/-- Maximum number of attribute sets to cache. -/
def attributes_cache_size : ℕ := 256

/-- Attribute cache lookup: a stored entry counts as a hit only when the
snapshotted property map still equals the current property map of the
symbolizer. -/
def attrCacheLookup (m : AttrCache) (attr_key : ℕ) (props : properties_t) :
    Option svg_attribute_t :=
  match cFind m attr_key with
  | some av => if av.2 = props then some av.1 else none
  | none => none

/-- Attribute cache insertion, with the eviction check of the source. -/
def attrCacheStore (m : AttrCache) (attr_key : ℕ)
    (v : svg_attribute_t × properties_t) : AttrCache :=
  cacheStore natLtB attributes_cache_size m attr_key v

/-- Model of the attribute resolution phase of
render_marker_symbolizer_visitor::operator()(marker_svg): look up the
cached attributes; on a miss resolve afresh (the resolution itself calls
get_marker_attributes, an external evaluation, supplied as an oracle) and
store the result only when no property of the symbolizer is an
expression. Returns the attributes used and the updated cache. -/
def attribute_resolution (resolve_fresh : Unit → svg_attribute_t) (m : AttrCache)
    (attr_key : ℕ) (props : properties_t) : svg_attribute_t × AttrCache :=
  match attrCacheLookup m attr_key props with
  | some r => (r, m)
  | none =>
    let r := resolve_fresh ()
    let cacheable := props.all (fun key_prop => !(is_expression key_prop.2))
    if cacheable then (r, attrCacheStore m attr_key (r, props)) else (r, m)

/-- Maximum number of ellipses to cache. -/
def ellipses_cache_size : ℕ := 256

/-- Key of the ellipse cache: the width, height, stroke-width triple
(negative infinity sentinels are just particular rationals here). -/
abbrev ellipse_key_t := ℚ × ℚ × ℚ

/-- Lexicographic strict order on the ellipse cache key, mirroring
std::tuple::operator< on three doubles. -/
def ellipseKeyLt (a b : ellipse_key_t) : Bool :=
  lexB qLtB (lexB qLtB qLtB) a b

/-- Ellipse cache state: the static cached_ellipses_ map; the value is the
identity of the procedurally built svg storage (svg_path_ptr). -/
abbrev EllipseCache := List (ellipse_key_t × ℕ)

/-- Model of the ellipse special case: look up the built marker by its
parameter triple, build it (external build_ellipse, supplied as an
oracle) and insert on a miss. -/
def ellipse_lookup_or_build (build : Unit → ℕ) (m : EllipseCache)
    (marker_key : ellipse_key_t) : ℕ × EllipseCache :=
  match cFind m marker_key with
  | some p => (p, m)
  | none =>
    let p := build ()
    (p, cacheInsert ellipseKeyLt ellipses_cache_size m marker_key p)

/-! Entry point render_markers_symbolizer
(src/renderer_common/render_markers_symbolizer.cpp, bottom). -/

/-- Filename resolution: the file property of the symbolizer defaults to
the ellipse sentinel when absent. -/
def get_file (file_prop : Option String) : String :=
  file_prop.getD "shape://ellipse"

/-- Model of render_markers_symbolizer: when the resolved filename is
nonempty, resolve the marker and apply the rendering visitor (both
external to this decision, supplied as one oracle acting on an abstract
render state); when the filename is empty, do nothing. -/
def render_markers_symbolizer {St : Type} (resolve_and_visit : String → St → St)
    (file_prop : Option String) (st : St) : St :=
  let filename := get_file file_prop
  if filename ≠ "" then resolve_and_visit filename st else st

/-! Interior point placement (src/geometry/interior.cpp), a modification
of the polylabel algorithm. Square roots of doubles are modelled by an
oracle function on Option rationals, where none stands for the infinity
initial value of the minimum distance accumulator; the while loop and the
grid covering loops, which are not structurally recursive, take an
explicit fuel argument. -/

/-- Two dimensional point over the rationals (mapnik::geometry::point). -/
structure point where
  x : ℚ
  y : ℚ
deriving DecidableEq, Repr

/-- Linear ring: a closed sequence of points. -/
abbrev linear_ring := List point

/-- Polygon: exterior ring plus interior rings. -/
structure polygon where
  exterior_ring : linear_ring
  interior_rings : List linear_ring
deriving DecidableEq, Repr

/-- Envelope of a ring. Modelled from the spec: the geometry_envelope
helper lives outside the provided sources; per the source comment it
finds the bounding box of the ring, and an empty ring yields the default
invalid mapnik box2d. -/
def envelope (ring : linear_ring) : box2d :=
  match ring with
  | [] => ⟨0, 0, -1, -1⟩
  | p :: ps =>
    ps.foldl (fun b q => ⟨min b.minx q.x, min b.miny q.y, max b.maxx q.x, max b.maxy q.y⟩)
      ⟨p.x, p.y, p.x, p.y⟩

/-- Squared distance from a point to a segment (detail::segment_dist_sq). -/
def segment_dist_sq (p a b : point) : ℚ :=
  let x := a.x
  let y := a.y
  let dx := b.x - x
  let dy := b.y - y
  let xy :=
    if dx ≠ 0 ∨ dy ≠ 0 then
      let t := ((p.x - x) * dx + (p.y - y) * dy) / (dx * dx + dy * dy)
      if t > 1 then (b.x, b.y)
      else if t > 0 then (x + dx * t, y + dy * t)
      else (x, y)
    else (x, y)
  let dx2 := p.x - xy.1
  let dy2 := p.y - xy.2
  dx2 * dx2 + dy2 * dy2

/-- Minimum with the infinity-initialized accumulator. -/
def min_inf (m : Option ℚ) (x : ℚ) : Option ℚ :=
  match m with
  | none => some x
  | some y => some (min y x)

/-- Consecutive vertex pairs of a ring, pairing each vertex with its
cyclic predecessor, mirroring the index loop of point_to_ring_dist. -/
def ring_pairs (ring : linear_ring) : List (point × point) :=
  match ring.getLast? with
  | none => []
  | some lastp => ring.zip (lastp :: ring.dropLast)

/-- Crossing and distance accumulation over one ring
(detail::point_to_ring_dist). -/
def point_to_ring_dist (p : point) (ring : linear_ring) (acc : Bool × Option ℚ) :
    Bool × Option ℚ :=
  (ring_pairs ring).foldl
    (fun st ab =>
      let a := ab.1
      let b := ab.2
      let inside :=
        if (decide (a.y > p.y) != decide (b.y > p.y)) &&
            decide (p.x < (b.x - a.x) * (p.y - a.y) / (b.y - a.y) + a.x)
        then !st.1 else st.1
      (inside, min_inf st.2 (segment_dist_sq p a b)))
    acc

/-- Signed distance from a point to the polygon outline, negative outside
(detail::point_to_polygon_dist). -/
def point_to_polygon_dist (sqrtFn : Option ℚ → ℚ) (p : point) (poly : polygon) : ℚ :=
  let acc0 := point_to_ring_dist p poly.exterior_ring (false, none)
  let acc := poly.interior_rings.foldl (fun st ring => point_to_ring_dist p ring st) acc0
  (if acc.1 then 1 else -1) * sqrtFn acc.2

/-- Fitness data (detail::fitness_functor): the polygon centroid and the
larger of the two bounding box extents. -/
structure fitness_functor where
  centroid : point
  max_size : ℚ
deriving DecidableEq, Repr

/-- Construction of the fitness functor from centroid and polygon size. -/
def fitness_functor.make (centroid polygon_size : point) : fitness_functor :=
  ⟨centroid, max polygon_size.x polygon_size.y⟩

/-- Fitness of a cell center at a given distance to the polygon. -/
def fitness_functor.apply (sqrtFn : Option ℚ → ℚ) (ff : fitness_functor)
    (cell_center : point) (distance_polygon : ℚ) : ℚ :=
  if distance_polygon ≤ 0 then distance_polygon
  else
    let d : point := ⟨cell_center.x - ff.centroid.x, cell_center.y - ff.centroid.y⟩
    let distance_centroid := sqrtFn (some (d.x * d.x + d.y * d.y))
    distance_polygon * (1 - distance_centroid / ff.max_size)

/-- Search cell (detail::cell). -/
structure cell where
  c : point
  h : ℚ
  d : ℚ
  fitness : ℚ
  max_fitness : ℚ
deriving DecidableEq, Repr

/-- Construction of a cell from its center and half size, computing the
distance, the fitness and the potential. -/
def cell.make (sqrtFn : Option ℚ → ℚ) (c : point) (h : ℚ) (poly : polygon)
    (ff : fitness_functor) : cell :=
  let d := point_to_polygon_dist sqrtFn c poly
  ⟨c, h, d, ff.apply sqrtFn c d, ff.apply sqrtFn c (d + h * sqrtFn (some 2))⟩

/-- Extraction of a cell with maximal potential, modelling the max heap
std::priority_queue ordered by max_fitness. -/
def popMax : List cell → Option (cell × List cell)
  | [] => none
  | c :: cs =>
    match popMax cs with
    | none => some (c, [])
    | some (m, rest) =>
      if c.max_fitness < m.max_fitness then some (m, c :: rest) else some (c, cs)

/-- Grid coordinates of the initial covering: from start while below the
bound, stepping by step; fuel bounds the number of iterations of the
source for loop. -/
def grid_steps (fuel : ℕ) (x bound step : ℚ) : List ℚ :=
  match fuel with
  | 0 => []
  | fuel + 1 => if x < bound then x :: grid_steps fuel (x + step) bound step else []

/-- Main refinement loop of detail::polylabel, with explicit fuel for the
source while loop. -/
def polylabel_loop (sqrtFn : Option ℚ → ℚ) (poly : polygon) (ff : fitness_functor)
    (precision : ℚ) : ℕ → List cell → cell → cell
  | 0, _, best_cell => best_cell
  | fuel + 1, queue, best_cell =>
    match popMax queue with
    | none => best_cell
    | some (current_cell, rest) =>
      let best_cell2 :=
        if current_cell.fitness > best_cell.fitness then current_cell else best_cell
      if current_cell.max_fitness - best_cell2.fitness ≤ precision then
        polylabel_loop sqrtFn poly ff precision fuel rest best_cell2
      else
        let h := current_cell.h / 2
        let children :=
          [cell.make sqrtFn ⟨current_cell.c.x - h, current_cell.c.y - h⟩ h poly ff,
           cell.make sqrtFn ⟨current_cell.c.x + h, current_cell.c.y - h⟩ h poly ff,
           cell.make sqrtFn ⟨current_cell.c.x - h, current_cell.c.y + h⟩ h poly ff,
           cell.make sqrtFn ⟨current_cell.c.x + h, current_cell.c.y + h⟩ h poly ff]
        polylabel_loop sqrtFn poly ff precision fuel (children ++ rest) best_cell2

/-- Model of detail::polylabel. The centroid computation
(mapnik::geometry::centroid, outside the provided sources) is an oracle
returning none when it fails. -/
def polylabel (sqrtFn : Option ℚ → ℚ) (centroidFn : polygon → Option point)
    (fuel : ℕ) (poly : polygon) (precision : ℚ) : point :=
  let bbox := envelope poly.exterior_ring
  let size : point := ⟨bbox.width, bbox.height⟩
  let cell_size := min size.x size.y
  let h := cell_size / 2
  if cell_size = 0 then ⟨bbox.minx, bbox.miny⟩
  else
    match centroidFn poly with
    | none => ⟨(bbox.center).1, (bbox.center).2⟩
    | some centroid =>
      let ff := fitness_functor.make centroid size
      let initial :=
        (grid_steps fuel bbox.minx bbox.maxx cell_size).foldr
          (fun x acc =>
            ((grid_steps fuel bbox.miny bbox.maxy cell_size).map
              (fun y => cell.make sqrtFn ⟨x + h, y + h⟩ h poly ff)) ++ acc)
          []
      let best_cell := cell.make sqrtFn centroid 0 poly ff
      (polylabel_loop sqrtFn poly ff precision fuel initial best_cell).c

/-- Model of mapnik::geometry::interior, which calls polylabel with a
precision of ten times the scale factor. -/
def interior (sqrtFn : Option ℚ → ℚ) (centroidFn : polygon → Option point)
    (fuel : ℕ) (poly : polygon) (scale_factor : ℚ) : point :=
  polylabel sqrtFn centroidFn fuel poly (10 * scale_factor)

/-! Theorems. -/

theorem cacheInsert_length_bound {K V : Type} [DecidableEq K] (lt : K → K → Bool)
    (maxSize : ℕ) (m : List (K × V)) (k : K) (v : V)
    (hb : m.length ≤ maxSize + 1) :
    (cacheInsert lt maxSize m k v).length ≤ maxSize + 1 := by
  unfold cacheInsert
  by_cases h : maxSize < m.length
  · rw [if_pos h]
    have htail : m.tail.length ≤ maxSize := by
      cases m with
      | nil => simp at h
      | cons e es => simp only [List.length_cons] at hb; simp; omega
    calc (cEmplace lt m.tail k v).length ≤ m.tail.length + 1 :=
          length_cEmplace_le lt m.tail k v
      _ ≤ maxSize + 1 := by omega
  · rw [if_neg h]
    calc (cEmplace lt m k v).length ≤ m.length + 1 := length_cEmplace_le lt m k v
      _ ≤ maxSize + 1 := by omega

theorem cacheStore_length_bound {K V : Type} [DecidableEq K] (lt : K → K → Bool)
    (maxSize : ℕ) (m : List (K × V)) (k : K) (v : V)
    (hb : m.length ≤ maxSize + 1) :
    (cacheStore lt maxSize m k v).length ≤ maxSize + 1 := by
  unfold cacheStore
  by_cases h : maxSize < m.length
  · rw [if_pos h]
    have htail : m.tail.length ≤ maxSize := by
      cases m with
      | nil => simp at h
      | cons e es => simp only [List.length_cons] at hb; simp; omega
    calc (cAssign lt m.tail k v).length ≤ m.tail.length + 1 :=
          length_cAssign_le lt m.tail k v
      _ ≤ maxSize + 1 := by omega
  · rw [if_neg h]
    calc (cAssign lt m k v).length ≤ m.length + 1 := length_cAssign_le lt m k v
      _ ≤ maxSize + 1 := by omega

theorem cacheInsert_evict {K V : Type} [DecidableEq K] (lt : K → K → Bool)
    (maxSize : ℕ) (m : List (K × V)) (k : K) (v : V)
    (hover : maxSize < m.length) :
    ∃ e rest, m = e :: rest ∧
      cacheInsert lt maxSize m k v = cEmplace lt rest k v ∧
      cacheStore lt maxSize m k v = cAssign lt rest k v := by
  cases m with
  | nil => simp at hover
  | cons e rest =>
      refine ⟨e, rest, rfl, ?_, ?_⟩
      · unfold cacheInsert; rw [if_pos hover]; rfl
      · unfold cacheStore; rw [if_pos hover]; rfl

/-- Claim C1 (counterexample): starting from an empty ellipse cache and
inserting 257 entries with distinct keys, the cache holds 257 entries,
exceeding the configured maximum of 256; in particular the insertion made
when the cache was exactly at its bound evicted nothing. -/
theorem C1_counterexample :
    (buildSeq ellipseKeyLt ellipses_cache_size (fun i => ((i : ℚ), 0, 0)) 0 257).length
      = 257 ∧ 257 > ellipses_cache_size := by
  constructor
  · rw [buildSeq_eq_range ellipseKeyLt ellipses_cache_size (fun i => ((i : ℚ), 0, 0)) 0
      ?_ 257 (by norm_num [ellipses_cache_size])]
    · simp
    · intro i j hij
      have h1 : ¬ ((j : ℚ) < (i : ℚ)) := by
        rw [not_lt]
        exact_mod_cast Nat.le_of_lt hij
      have h2 : (j : ℚ) ≠ (i : ℚ) := by
        exact_mod_cast Nat.ne_of_gt hij
      constructor
      · simp [ellipseKeyLt, lexB, qLtB, h1, h2]
      · simp [Prod.ext_iff, h2]
  · norm_num [ellipses_cache_size]

/-- Claim C1 (amended): for every cache, the number of entries never
exceeds the configured maximum plus one (4097 for rendered images, 257
for attributes and ellipses), and an insertion performed when the cache
is strictly above its configured maximum evicts exactly one prior entry
(the first entry of the map) before the new entry is inserted; an
insertion performed when the cache is exactly at its configured maximum
evicts nothing. -/
theorem C1_cache_bound_amended :
    (∀ (m : ImgCache) (k : img_cache_key_t) (v : Option image_rgba8 × Option image_rgba8),
       m.length ≤ cache_size + 1 →
       (cacheInsert imgKeyLt cache_size m k v).length ≤ cache_size + 1 ∧
       (cache_size < m.length → ∃ e rest, m = e :: rest ∧
         cacheInsert imgKeyLt cache_size m k v = cEmplace imgKeyLt rest k v) ∧
       (m.length = cache_size →
         cacheInsert imgKeyLt cache_size m k v = cEmplace imgKeyLt m k v)) ∧
    (∀ (m : AttrCache) (k : ℕ) (v : svg_attribute_t × properties_t),
       m.length ≤ attributes_cache_size + 1 →
       (attrCacheStore m k v).length ≤ attributes_cache_size + 1 ∧
       (attributes_cache_size < m.length → ∃ e rest, m = e :: rest ∧
         attrCacheStore m k v = cAssign natLtB rest k v) ∧
       (m.length = attributes_cache_size →
         attrCacheStore m k v = cAssign natLtB m k v)) ∧
    (∀ (m : EllipseCache) (k : ellipse_key_t) (v : ℕ),
       m.length ≤ ellipses_cache_size + 1 →
       (cacheInsert ellipseKeyLt ellipses_cache_size m k v).length ≤ ellipses_cache_size + 1 ∧
       (ellipses_cache_size < m.length → ∃ e rest, m = e :: rest ∧
         cacheInsert ellipseKeyLt ellipses_cache_size m k v = cEmplace ellipseKeyLt rest k v) ∧
       (m.length = ellipses_cache_size →
         cacheInsert ellipseKeyLt ellipses_cache_size m k v = cEmplace ellipseKeyLt m k v)) := by
  refine ⟨fun m k v hb => ⟨?_, ?_, ?_⟩, fun m k v hb => ⟨?_, ?_, ?_⟩,
    fun m k v hb => ⟨?_, ?_, ?_⟩⟩
  · exact cacheInsert_length_bound imgKeyLt cache_size m k v hb
  · intro hover
    obtain ⟨e, rest, he, h1, _⟩ := cacheInsert_evict imgKeyLt cache_size m k v hover
    exact ⟨e, rest, he, h1⟩
  · intro heq
    unfold cacheInsert
    rw [if_neg (by omega)]
  · exact cacheStore_length_bound natLtB attributes_cache_size m k v hb
  · intro hover
    obtain ⟨e, rest, he, _, h2⟩ :=
      cacheInsert_evict natLtB attributes_cache_size m k v hover
    exact ⟨e, rest, he, h2⟩
  · intro heq
    unfold attrCacheStore cacheStore
    rw [if_neg (by omega)]
  · exact cacheInsert_length_bound ellipseKeyLt ellipses_cache_size m k v hb
  · intro hover
    obtain ⟨e, rest, he, h1, _⟩ :=
      cacheInsert_evict ellipseKeyLt ellipses_cache_size m k v hover
    exact ⟨e, rest, he, h1⟩
  · intro heq
    unfold cacheInsert
    rw [if_neg (by omega)]

/-- Witness for the amended claim C1 at a concrete ellipse cache state. -/
theorem C1_cache_bound_amended_witness :
    (cacheInsert ellipseKeyLt ellipses_cache_size [(((0 : ℚ), (0 : ℚ), (0 : ℚ)), 5)]
      ((1 : ℚ), (0 : ℚ), (0 : ℚ)) 6).length ≤ ellipses_cache_size + 1 :=
  (C1_cache_bound_amended.2.2 [(((0 : ℚ), (0 : ℚ), (0 : ℚ)), 5)]
    ((1 : ℚ), (0 : ℚ), (0 : ℚ)) 6 (by norm_num [ellipses_cache_size])).1

/-- Claim C7: when an insertion into a cache triggers eviction, the
evicted entry is the first entry of the sorted entry list, the least key
of the ordered map; the model carries no access-recency state (lookups
return the map unchanged), so the evicted entry is independent of access
order by construction. -/
theorem C7_evicts_least_key {K V : Type} [DecidableEq K] (lt : K → K → Bool)
    (maxSize : ℕ) (m : List (K × V)) (k : K) (v : V)
    (hs : m.Pairwise (fun a b => lt a.1 b.1 = true))
    (hover : maxSize < m.length) :
    ∃ e rest, m = e :: rest ∧
      (∀ e2 ∈ rest, lt e.1 e2.1 = true) ∧
      cacheInsert lt maxSize m k v = cEmplace lt rest k v ∧
      cacheStore lt maxSize m k v = cAssign lt rest k v := by
  obtain ⟨e, rest, he, h1, h2⟩ := cacheInsert_evict lt maxSize m k v hover
  refine ⟨e, rest, he, ?_, h1, h2⟩
  subst he
  exact (List.pairwise_cons.mp hs).1

/-- Witness for claim C7 at a concrete overfull two-entry cache. -/
theorem C7_evicts_least_key_witness :
    ∃ e rest, ([((1 : ℕ), 10), (2, 20)] : List (ℕ × ℕ)) = e :: rest ∧
      (∀ e2 ∈ rest, natLtB e.1 e2.1 = true) ∧
      cacheInsert natLtB 1 [((1 : ℕ), 10), (2, 20)] 3 30 = cEmplace natLtB rest 3 30 ∧
      cacheStore natLtB 1 [((1 : ℕ), 10), (2, 20)] 3 30 = cAssign natLtB rest 3 30 :=
  C7_evicts_least_key natLtB 1 [((1 : ℕ), 10), (2, 20)] 3 30 (by decide) (by decide)

/-! Sortedness invariant: every cache state reachable by the modelled
operations is sorted by its key order, which grounds the sortedness
hypothesis of the eviction theorem. -/

theorem mem_insertSorted {K V : Type} (lt : K → K → Bool) (k : K) (v : V) :
    ∀ (m : List (K × V)) (e : K × V), e ∈ insertSorted lt k v m →
      e = (k, v) ∨ e ∈ m := by
  intro m
  induction m with
  | nil =>
      intro e he
      simp only [insertSorted, List.mem_singleton] at he
      exact Or.inl he
  | cons e2 es ih =>
      intro e he
      simp only [insertSorted] at he
      by_cases hlt : lt k e2.1 = true
      · rw [if_pos hlt] at he
        rcases List.mem_cons.mp he with rfl | he2
        · exact Or.inl rfl
        · exact Or.inr he2
      · rw [if_neg hlt] at he
        rcases List.mem_cons.mp he with rfl | he2
        · exact Or.inr (List.mem_cons_self _ _)
        · rcases ih e he2 with h | h
          · exact Or.inl h
          · exact Or.inr (List.mem_cons_of_mem _ h)

theorem cFind_none_keys {K V : Type} [DecidableEq K] :
    ∀ (m : List (K × V)) (k : K), cFind m k = none → ∀ e ∈ m, e.1 ≠ k := by
  intro m
  induction m with
  | nil => intro k _ e he; simp at he
  | cons e2 es ih =>
      intro k hf e he
      unfold cFind at hf
      by_cases hk : k = e2.1
      · rw [if_pos hk] at hf
        exact absurd hf (by simp)
      · rw [if_neg hk] at hf
        rcases List.mem_cons.mp he with rfl | he2
        · exact fun h => hk h.symm
        · exact ih k hf e he2

theorem pairwise_insertSorted {K V : Type} (lt : K → K → Bool)
    (htrans : ∀ a b c : K, lt a b = true → lt b c = true → lt a c = true)
    (hconn : ∀ a b : K, a ≠ b → lt a b = true ∨ lt b a = true) (k : K) (v : V) :
    ∀ m : List (K × V), m.Pairwise (fun a b => lt a.1 b.1 = true) →
      (∀ e ∈ m, e.1 ≠ k) →
      (insertSorted lt k v m).Pairwise (fun a b => lt a.1 b.1 = true) := by
  intro m
  induction m with
  | nil => intro _ _; simp [insertSorted]
  | cons e es ih =>
      intro hp hne
      obtain ⟨he_all, hes⟩ := List.pairwise_cons.mp hp
      simp only [insertSorted]
      by_cases hlt : lt k e.1 = true
      · rw [if_pos hlt]
        rw [List.pairwise_cons]
        refine ⟨?_, List.pairwise_cons.mpr ⟨he_all, hes⟩⟩
        intro x hx
        rcases List.mem_cons.mp hx with rfl | hx2
        · exact hlt
        · exact htrans _ _ _ hlt (he_all x hx2)
      · rw [if_neg hlt]
        rw [List.pairwise_cons]
        constructor
        · intro x hx
          rcases mem_insertSorted lt k v es x hx with rfl | hx2
          · rcases hconn e.1 k (hne e (List.mem_cons_self e es)) with h | h
            · exact h
            · exact absurd h hlt
          · exact he_all x hx2
        · exact ih hes (fun x hx => hne x (List.mem_cons_of_mem e hx))

theorem pairwise_cEmplace {K V : Type} [DecidableEq K] (lt : K → K → Bool)
    (htrans : ∀ a b c : K, lt a b = true → lt b c = true → lt a c = true)
    (hconn : ∀ a b : K, a ≠ b → lt a b = true ∨ lt b a = true)
    (m : List (K × V)) (k : K) (v : V)
    (hp : m.Pairwise (fun a b => lt a.1 b.1 = true)) :
    (cEmplace lt m k v).Pairwise (fun a b => lt a.1 b.1 = true) := by
  unfold cEmplace
  cases hf : cFind m k with
  | some _ => exact hp
  | none => exact pairwise_insertSorted lt htrans hconn k v m hp (cFind_none_keys m k hf)

theorem pairwise_cAssign {K V : Type} [DecidableEq K] (lt : K → K → Bool)
    (htrans : ∀ a b c : K, lt a b = true → lt b c = true → lt a c = true)
    (hconn : ∀ a b : K, a ≠ b → lt a b = true ∨ lt b a = true)
    (m : List (K × V)) (k : K) (v : V)
    (hp : m.Pairwise (fun a b => lt a.1 b.1 = true)) :
    (cAssign lt m k v).Pairwise (fun a b => lt a.1 b.1 = true) := by
  unfold cAssign
  cases hf : cFind m k with
  | some _ =>
      rw [List.pairwise_map]
      refine hp.imp ?_
      intro a b hr
      have ha : (if a.1 = k then (k, v) else a).1 = a.1 := by
        by_cases h : a.1 = k
        · simp [h]
        · simp [h]
      have hb : (if b.1 = k then (k, v) else b).1 = b.1 := by
        by_cases h : b.1 = k
        · simp [h]
        · simp [h]
      rw [ha, hb]
      exact hr
  | none => exact pairwise_insertSorted lt htrans hconn k v m hp (cFind_none_keys m k hf)

theorem pairwise_cacheInsert {K V : Type} [DecidableEq K] (lt : K → K → Bool)
    (htrans : ∀ a b c : K, lt a b = true → lt b c = true → lt a c = true)
    (hconn : ∀ a b : K, a ≠ b → lt a b = true ∨ lt b a = true)
    (maxSize : ℕ) (m : List (K × V)) (k : K) (v : V)
    (hp : m.Pairwise (fun a b => lt a.1 b.1 = true)) :
    (cacheInsert lt maxSize m k v).Pairwise (fun a b => lt a.1 b.1 = true) := by
  unfold cacheInsert
  by_cases h : maxSize < m.length
  · rw [if_pos h]
    exact pairwise_cEmplace lt htrans hconn m.tail k v hp.tail
  · rw [if_neg h]
    exact pairwise_cEmplace lt htrans hconn m k v hp

theorem pairwise_cacheStore {K V : Type} [DecidableEq K] (lt : K → K → Bool)
    (htrans : ∀ a b c : K, lt a b = true → lt b c = true → lt a c = true)
    (hconn : ∀ a b : K, a ≠ b → lt a b = true ∨ lt b a = true)
    (maxSize : ℕ) (m : List (K × V)) (k : K) (v : V)
    (hp : m.Pairwise (fun a b => lt a.1 b.1 = true)) :
    (cacheStore lt maxSize m k v).Pairwise (fun a b => lt a.1 b.1 = true) := by
  unfold cacheStore
  by_cases h : maxSize < m.length
  · rw [if_pos h]
    exact pairwise_cAssign lt htrans hconn m.tail k v hp.tail
  · rw [if_neg h]
    exact pairwise_cAssign lt htrans hconn m k v hp

theorem lexB_trans {A B : Type} [DecidableEq A] (la : A → A → Bool) (lb : B → B → Bool)
    (hla : ∀ a b c, la a b = true → la b c = true → la a c = true)
    (hlb : ∀ a b c, lb a b = true → lb b c = true → lb a c = true) :
    ∀ x y z : A × B, lexB la lb x y = true → lexB la lb y z = true →
      lexB la lb x z = true := by
  intro x y z hxy hyz
  simp only [lexB, Bool.or_eq_true, Bool.and_eq_true, beq_iff_eq] at *
  rcases hxy with h1 | ⟨he1, h1⟩ <;> rcases hyz with h2 | ⟨he2, h2⟩
  · exact Or.inl (hla _ _ _ h1 h2)
  · exact Or.inl (he2 ▸ h1)
  · exact Or.inl (he1 ▸ h2)
  · exact Or.inr ⟨he1.trans he2, hlb _ _ _ h1 h2⟩

theorem lexB_conn {A B : Type} [DecidableEq A] (la : A → A → Bool) (lb : B → B → Bool)
    (hla : ∀ a b : A, a ≠ b → la a b = true ∨ la b a = true)
    (hlb : ∀ a b : B, a ≠ b → lb a b = true ∨ lb b a = true) :
    ∀ x y : A × B, x ≠ y → lexB la lb x y = true ∨ lexB la lb y x = true := by
  rintro ⟨x1, x2⟩ ⟨y1, y2⟩ hxy
  by_cases h1 : x1 = y1
  · have h2 : x2 ≠ y2 := by
      intro h2
      exact hxy (by rw [h1, h2])
    rcases hlb x2 y2 h2 with h | h
    · left
      simp [lexB, h1, h]
    · right
      simp [lexB, h1.symm, h]
  · rcases hla x1 y1 h1 with h | h
    · left
      simp [lexB, h]
    · right
      simp [lexB, h]

theorem qLtB_trans : ∀ a b c : ℚ, qLtB a b = true → qLtB b c = true →
    qLtB a c = true := by
  intro a b c
  simp only [qLtB, decide_eq_true_eq]
  exact lt_trans

theorem qLtB_conn : ∀ a b : ℚ, a ≠ b → qLtB a b = true ∨ qLtB b a = true := by
  intro a b h
  simp only [qLtB, decide_eq_true_eq]
  exact h.lt_or_lt

theorem natLtB_trans : ∀ a b c : ℕ, natLtB a b = true → natLtB b c = true →
    natLtB a c = true := by
  intro a b c
  simp only [natLtB, decide_eq_true_eq]
  exact Nat.lt_trans

theorem natLtB_conn : ∀ a b : ℕ, a ≠ b → natLtB a b = true ∨ natLtB b a = true := by
  intro a b h
  simp only [natLtB, decide_eq_true_eq]
  exact h.lt_or_lt

theorem intLtB_trans : ∀ a b c : ℤ, intLtB a b = true → intLtB b c = true →
    intLtB a c = true := by
  intro a b c
  simp only [intLtB, decide_eq_true_eq]
  exact Int.lt_trans

theorem intLtB_conn : ∀ a b : ℤ, a ≠ b → intLtB a b = true ∨ intLtB b a = true := by
  intro a b h
  simp only [intLtB, decide_eq_true_eq]
  exact h.lt_or_lt

theorem boolLtB_trans : ∀ a b c : Bool, boolLtB a b = true → boolLtB b c = true →
    boolLtB a c = true := by decide

theorem boolLtB_conn : ∀ a b : Bool, a ≠ b → boolLtB a b = true ∨ boolLtB b a = true := by
  decide

theorem gradLtB_trans : ∀ a b c : gradient_e, gradLtB a b = true → gradLtB b c = true →
    gradLtB a c = true := by
  intro a b c
  cases a <;> cases b <;> cases c <;> decide

theorem gradLtB_conn : ∀ a b : gradient_e, a ≠ b →
    gradLtB a b = true ∨ gradLtB b a = true := by
  intro a b h
  cases a <;> cases b <;> first
  | exact absurd rfl h
  | decide

theorem attr_key_tuple_inj : ∀ a b : path_attributes,
    attr_key_tuple a = attr_key_tuple b → a = b := by
  intro a b h
  cases a
  cases b
  simp only [attr_key_tuple, Prod.mk.injEq] at h
  simp [h.1, h.2.1, h.2.2.1, h.2.2.2.1, h.2.2.2.2]

theorem attrLt_trans : ∀ a b c : path_attributes, attrLt a b = true →
    attrLt b c = true → attrLt a c = true := by
  intro a b c
  exact lexB_trans _ _ boolLtB_trans
    (lexB_trans _ _ boolLtB_trans
      (lexB_trans _ _ gradLtB_trans
        (lexB_trans _ _ gradLtB_trans qLtB_trans)))
    (attr_key_tuple a) (attr_key_tuple b) (attr_key_tuple c)

theorem attrLt_conn : ∀ a b : path_attributes, a ≠ b →
    attrLt a b = true ∨ attrLt b a = true := by
  intro a b h
  exact lexB_conn _ _ boolLtB_conn
    (lexB_conn _ _ boolLtB_conn
      (lexB_conn _ _ gradLtB_conn
        (lexB_conn _ _ gradLtB_conn qLtB_conn)))
    (attr_key_tuple a) (attr_key_tuple b)
    (fun heq => h (attr_key_tuple_inj a b heq))

theorem imgKeyLt_trans : ∀ a b c : img_cache_key_t, imgKeyLt a b = true →
    imgKeyLt b c = true → imgKeyLt a c = true :=
  lexB_trans _ _ natLtB_trans (lexB_trans _ _ intLtB_trans attrLt_trans)

theorem imgKeyLt_conn : ∀ a b : img_cache_key_t, a ≠ b →
    imgKeyLt a b = true ∨ imgKeyLt b a = true :=
  lexB_conn _ _ natLtB_conn (lexB_conn _ _ intLtB_conn attrLt_conn)

theorem ellipseKeyLt_trans : ∀ a b c : ellipse_key_t, ellipseKeyLt a b = true →
    ellipseKeyLt b c = true → ellipseKeyLt a c = true :=
  lexB_trans _ _ qLtB_trans (lexB_trans _ _ qLtB_trans qLtB_trans)

theorem ellipseKeyLt_conn : ∀ a b : ellipse_key_t, a ≠ b →
    ellipseKeyLt a b = true ∨ ellipseKeyLt b a = true :=
  lexB_conn _ _ qLtB_conn (lexB_conn _ _ qLtB_conn qLtB_conn)

/-- Cacheability condition of the rendered-image cache: a single
attribute record and a placement transform with unit scale and no shear. -/
def cacheable_cond (attrs : List path_attributes) (tr : trans_affine) : Prop :=
  attrs.length = 1 ∧ tr.sx = 1 ∧ tr.sy = 1 ∧ tr.shx = 0 ∧ tr.shy = 0

theorem render_svg_eq_fallback (rasterize : scratch_args → image_rgba8)
    (src : svg_storage) (attrs : List path_attributes)
    (params : markers_dispatch_params) (tr : trans_affine) (cache : ImgCache)
    (h : ¬ cacheable_cond attrs tr) :
    render_marker_svg rasterize src attrs params tr cache =
      (cache, [.render_vector attrs src.bounding_box tr params.opacity
        params.snap_to_pixels]) := by
  cases attrs with
  | nil => rfl
  | cons a t =>
    cases t with
    | nil =>
        have htr : ¬ (tr.sx = 1 ∧ tr.sy = 1 ∧ tr.shx = 0 ∧ tr.shy = 0) := by
          intro hc
          exact h ⟨rfl, hc.1, hc.2.1, hc.2.2.1, hc.2.2.2⟩
        simp only [render_marker_svg]
        rw [if_neg htr]
    | cons b t2 => rfl

theorem render_svg_hit (rasterize : scratch_args → image_rgba8) (src : svg_storage)
    (a0 : path_attributes) (params : markers_dispatch_params) (tr : trans_affine)
    (cache : ImgCache) (v : Option image_rgba8 × Option image_rgba8)
    (htr : tr.sx = 1 ∧ tr.sy = 1 ∧ tr.shx = 0 ∧ tr.shy = 0)
    (hfind : cFind cache (img_cache_key src a0 tr) = some v) :
    render_marker_svg rasterize src [a0] params tr cache =
      (cache, opt_blit v.1 (blit_tr_of tr src (stroke_margin a0)) params ++
              opt_blit v.2 (blit_tr_of tr src (stroke_margin a0)) params) := by
  simp only [render_marker_svg]
  rw [if_pos htr, hfind]

theorem render_svg_miss (rasterize : scratch_args → image_rgba8) (src : svg_storage)
    (a0 : path_attributes) (params : markers_dispatch_params) (tr : trans_affine)
    (cache : ImgCache)
    (htr : tr.sx = 1 ∧ tr.sy = 1 ∧ tr.shx = 0 ∧ tr.shy = 0)
    (hfind : cFind cache (img_cache_key src a0 tr) = none) :
    render_marker_svg rasterize src [a0] params tr cache =
      (cacheInsert imgKeyLt cache_size cache (img_cache_key src a0 tr)
        (make_fill_img rasterize src a0 [a0] (local_tr_of tr src (stroke_margin a0))
           (canvas_width_of src (stroke_margin a0)) (canvas_height_of src (stroke_margin a0))
           params.snap_to_pixels,
         make_stroke_img rasterize src a0 [a0] (local_tr_of tr src (stroke_margin a0))
           (canvas_width_of src (stroke_margin a0)) (canvas_height_of src (stroke_margin a0))
           params.snap_to_pixels),
       opt_blit (make_fill_img rasterize src a0 [a0] (local_tr_of tr src (stroke_margin a0))
           (canvas_width_of src (stroke_margin a0)) (canvas_height_of src (stroke_margin a0))
           params.snap_to_pixels) (blit_tr_of tr src (stroke_margin a0)) params ++
       opt_blit (make_stroke_img rasterize src a0 [a0] (local_tr_of tr src (stroke_margin a0))
           (canvas_width_of src (stroke_margin a0)) (canvas_height_of src (stroke_margin a0))
           params.snap_to_pixels) (blit_tr_of tr src (stroke_margin a0)) params) := by
  simp only [render_marker_svg]
  rw [if_pos htr, hfind]

/-- Claim C2: the rendered-image cache is consulted and populated exactly
for single-record attribute sets under a placement transform with unit
scale and zero shear; any other placement is rasterized directly into the
destination and leaves the cache unchanged. -/
theorem C2_transform_gates_cache (rasterize : scratch_args → image_rgba8)
    (src : svg_storage) (attrs : List path_attributes)
    (params : markers_dispatch_params) (tr : trans_affine) (cache : ImgCache) :
    (¬ cacheable_cond attrs tr →
      render_marker_svg rasterize src attrs params tr cache =
        (cache, [.render_vector attrs src.bounding_box tr params.opacity
          params.snap_to_pixels])) ∧
    (∀ a0, attrs = [a0] → cacheable_cond attrs tr →
      (∀ v, cFind cache (img_cache_key src a0 tr) = some v →
        (render_marker_svg rasterize src attrs params tr cache).1 = cache) ∧
      (cFind cache (img_cache_key src a0 tr) = none →
        (render_marker_svg rasterize src attrs params tr cache).1 =
          cacheInsert imgKeyLt cache_size cache (img_cache_key src a0 tr)
            (make_fill_img rasterize src a0 [a0] (local_tr_of tr src (stroke_margin a0))
               (canvas_width_of src (stroke_margin a0))
               (canvas_height_of src (stroke_margin a0)) params.snap_to_pixels,
             make_stroke_img rasterize src a0 [a0] (local_tr_of tr src (stroke_margin a0))
               (canvas_width_of src (stroke_margin a0))
               (canvas_height_of src (stroke_margin a0)) params.snap_to_pixels))) := by
  refine ⟨fun h => render_svg_eq_fallback rasterize src attrs params tr cache h,
    fun a0 ha hc => ?_⟩
  subst ha
  have htr : tr.sx = 1 ∧ tr.sy = 1 ∧ tr.shx = 0 ∧ tr.shy = 0 :=
    ⟨hc.2.1, hc.2.2.1, hc.2.2.2.1, hc.2.2.2.2⟩
  constructor
  · intro v hv
    rw [render_svg_hit rasterize src a0 params tr cache v htr hv]
  · intro hnone
    rw [render_svg_miss rasterize src a0 params tr cache htr hnone]

/-! Concrete fixtures used by the closed witness statements. -/

/-- Witness attribute record: fill on, no stroke. -/
def wa0 : path_attributes := ⟨true, false, .NO_GRADIENT, .NO_GRADIENT, 1⟩

/-- Witness marker shape with a ten by ten bounding box. -/
def wsrc0 : svg_storage := ⟨7, ⟨-5, -5, 5, 5⟩⟩

/-- Witness dispatch parameters. -/
def wp0 : markers_dispatch_params := ⟨1, 1, false⟩

/-- Witness rasterizer yielding one nonzero pixel. -/
def wr0 : scratch_args → image_rgba8 := fun _ => ⟨1, 1, [5]⟩

/-- Witness rasterizer yielding an all-zero image. -/
def wr_zero : scratch_args → image_rgba8 := fun _ => ⟨1, 1, [0]⟩

/-- Witness placement at translation 10.3, 10.7 with unit scale. -/
def wtr1 : trans_affine := ⟨1, 0, 0, 1, 10.3, 10.7⟩

/-- Witness placement at translation 10.35, 10.72 with unit scale. -/
def wtr2 : trans_affine := ⟨1, 0, 0, 1, 10.35, 10.72⟩

/-- Witness placement with scale two: not cacheable. -/
def wtr_scaled : trans_affine := ⟨2, 0, 0, 2, 10.3, 10.7⟩

/-- Witness for claim C2: a placement at scale two is rendered directly
and leaves the cache empty. -/
theorem C2_transform_gates_cache_witness :
    render_marker_svg wr0 wsrc0 [wa0] wp0 wtr_scaled [] =
      ([], [.render_vector [wa0] wsrc0.bounding_box wtr_scaled wp0.opacity
        wp0.snap_to_pixels]) :=
  (C2_transform_gates_cache wr0 wsrc0 [wa0] wp0 wtr_scaled []).1
    (by
      intro hc
      have : (2 : ℚ) = 1 := hc.2.1
      norm_num at this)

/-- Claim C3: the cache bucket index of a cacheable placement equals
floor of fractional y times the sampling rate, times the sampling rate,
plus floor of fractional x times the sampling rate; at translation
10.3, 10.7 it is 42, at 10.35, 10.72 it is also 42, and a second render
at the nearby translation hits the bucket populated by the first and
leaves the cache unchanged. -/
theorem C3_bucket_index :
    (∀ tx ty : ℚ, sample_idx_of tx ty =
      ⌊(ty - (⌊ty⌋ : ℤ)) * 8⌋ * 8 + ⌊(tx - (⌊tx⌋ : ℤ)) * 8⌋) ∧
    sample_idx_of 10.3 10.7 = 42 ∧
    sample_idx_of 10.35 10.72 = 42 ∧
    img_cache_key wsrc0 wa0 wtr1 = img_cache_key wsrc0 wa0 wtr2 ∧
    (cFind (render_marker_svg wr0 wsrc0 [wa0] wp0 wtr1 []).1
      (img_cache_key wsrc0 wa0 wtr2)).isSome = true ∧
    (render_marker_svg wr0 wsrc0 [wa0] wp0 wtr2
        (render_marker_svg wr0 wsrc0 [wa0] wp0 wtr1 []).1).1 =
      (render_marker_svg wr0 wsrc0 [wa0] wp0 wtr1 []).1 := by
  refine ⟨fun tx ty => ?_, ?_, ?_, ?_, ?_, ?_⟩
  · simp [sample_idx_of, frac_of, sampling_rate]
  · with_unfolding_all decide
  · with_unfolding_all decide
  · with_unfolding_all decide
  · with_unfolding_all decide
  · with_unfolding_all decide

/-- Claim C4: on hit and miss alike every patch blit uses the blitting
transform built from the current placement, and composing that blitting
transform with the local transform the cached patch was rendered at
restores the original translation minus the quantization remainder: the
difference between the fractional offset of the current placement and
the fractional offset baked into the cached patch. In particular on a
miss, when the patch was rendered at the current placement itself, the
original sub-pixel position is restored exactly. -/
theorem C4_blit_restores_position :
    (∀ (tr tr0 : trans_affine) (src : svg_storage) (margin : ℚ),
      (blit_tr_of tr src margin).tx + (local_tr_of tr0 src margin).tx =
        tr.tx - (frac_of tr.tx - frac_of tr0.tx) ∧
      (blit_tr_of tr src margin).ty + (local_tr_of tr0 src margin).ty =
        tr.ty - (frac_of tr.ty - frac_of tr0.ty)) ∧
    (∀ (tr : trans_affine) (src : svg_storage) (margin : ℚ),
      (blit_tr_of tr src margin).tx + (local_tr_of tr src margin).tx = tr.tx ∧
      (blit_tr_of tr src margin).ty + (local_tr_of tr src margin).ty = tr.ty) ∧
    (∀ (rasterize : scratch_args → image_rgba8) (src : svg_storage)
       (a0 : path_attributes) (params : markers_dispatch_params)
       (tr : trans_affine) (cache : ImgCache) (img : image_rgba8)
       (btr : trans_affine) (op sf : ℚ) (sn : Bool),
      render_effect.render_raster img btr op sf sn ∈
        (render_marker_svg rasterize src [a0] params tr cache).2 →
      btr = blit_tr_of tr src (stroke_margin a0)) := by
  refine ⟨fun tr tr0 src margin => ?_, fun tr src margin => ?_,
    fun rasterize src a0 params tr cache img btr op sf sn hmem => ?_⟩
  · constructor
    · simp only [blit_tr_of, local_tr_of, trans_affine.translate]
      ring
    · simp only [blit_tr_of, local_tr_of, trans_affine.translate]
      ring
  · constructor
    · simp only [blit_tr_of, local_tr_of, trans_affine.translate]
      ring
    · simp only [blit_tr_of, local_tr_of, trans_affine.translate]
      ring
  · by_cases htr : tr.sx = 1 ∧ tr.sy = 1 ∧ tr.shx = 0 ∧ tr.shy = 0
    · have hopt : ∀ (o : Option image_rgba8) (t : trans_affine)
          (p : markers_dispatch_params),
          render_effect.render_raster img btr op sf sn ∈ opt_blit o t p → btr = t := by
        intro o t p hm
        cases o with
        | none => simp [opt_blit] at hm
        | some i =>
            simp only [opt_blit, List.mem_singleton,
              render_effect.render_raster.injEq] at hm
            exact hm.2.1
      cases hfind : cFind cache (img_cache_key src a0 tr) with
      | some v =>
          rw [render_svg_hit rasterize src a0 params tr cache v htr hfind] at hmem
          rcases List.mem_append.mp hmem with hm | hm
          · exact hopt _ _ _ hm
          · exact hopt _ _ _ hm
      | none =>
          rw [render_svg_miss rasterize src a0 params tr cache htr hfind] at hmem
          rcases List.mem_append.mp hmem with hm | hm
          · exact hopt _ _ _ hm
          · exact hopt _ _ _ hm
    · have hnc : ¬ cacheable_cond [a0] tr := by
        intro hc
        exact htr ⟨hc.2.1, hc.2.2.1, hc.2.2.2.1, hc.2.2.2.2⟩
      rw [render_svg_eq_fallback rasterize src [a0] params tr cache hnc] at hmem
      simp at hmem

/-- Witness for claim C4: the single blit effect of a concrete miss
render uses the blitting transform of the placement. -/
theorem C4_blit_restores_position_witness :
    (⟨1, 0, 0, 1, 5, 5⟩ : trans_affine) = blit_tr_of wtr1 wsrc0 (stroke_margin wa0) :=
  C4_blit_restores_position.2.2 wr0 wsrc0 wa0 wp0 wtr1 [] ⟨1, 1, [5]⟩
    ⟨1, 0, 0, 1, 5, 5⟩ 1 1 false (by with_unfolding_all decide)

/-- Claim C5: an attribute-cache lookup returns a stored attribute set
exactly when the property map snapshotted at insertion time equals the
current property map of the symbolizer; when the stored snapshot differs,
the lookup misses and the resolution phase computes a fresh attribute
set. -/
theorem C5_attr_hit_requires_equal_props (m : AttrCache) (attr_key : ℕ)
    (props : properties_t) :
    (∀ r, attrCacheLookup m attr_key props = some r ↔
      cFind m attr_key = some (r, props)) ∧
    (∀ r stored, cFind m attr_key = some (r, stored) → stored ≠ props →
      attrCacheLookup m attr_key props = none ∧
      ∀ resolve_fresh,
        (attribute_resolution resolve_fresh m attr_key props).1 = resolve_fresh ()) := by
  constructor
  · intro r
    unfold attrCacheLookup
    cases hf : cFind m attr_key with
    | none => simp
    | some av =>
        dsimp only
        by_cases hp : av.2 = props
        · rw [if_pos hp]
          constructor
          · intro h
            injection h with h2
            subst h2
            rw [← hp]
          · intro h
            injection h with h2
            rw [h2]
        · rw [if_neg hp]
          constructor
          · intro h
            exact absurd h (by simp)
          · intro h
            injection h with h2
            exact absurd (by rw [h2]) hp
  · intro r stored hf hne
    have hmiss : attrCacheLookup m attr_key props = none := by
      unfold attrCacheLookup
      rw [hf]
      dsimp only
      rw [if_neg (by simpa using hne)]
    refine ⟨hmiss, fun resolve_fresh => ?_⟩
    unfold attribute_resolution
    rw [hmiss]
    by_cases hc : props.all (fun key_prop => !(is_expression key_prop.2))
    · simp only [hc, if_true]
    · simp only [hc]
      simp

/-- Witness properties for the attribute cache claims. -/
def wprops0 : properties_t := [(1, .literal 3)]

/-- Witness properties differing from wprops0 in the stored literal. -/
def wprops1 : properties_t := [(1, .literal 4)]

/-- Witness properties containing an expression value. -/
def wprops_expr : properties_t := [(1, .literal 3), (2, .expression 0)]

/-- Witness attribute cache holding a snapshot taken under wprops0. -/
def wattr_cache : AttrCache := [(11, ([wa0], wprops0))]

/-- Witness fresh resolution oracle. -/
def wresolve : Unit → svg_attribute_t := fun _ => [wa0, wa0]

/-- Witness for claim C5: under a mutated property map the concrete
lookup misses and the resolution returns the fresh attribute set. -/
theorem C5_attr_hit_requires_equal_props_witness :
    attrCacheLookup wattr_cache 11 wprops1 = none ∧
    ∀ resolve_fresh,
      (attribute_resolution resolve_fresh wattr_cache 11 wprops1).1 =
        resolve_fresh () :=
  (C5_attr_hit_requires_equal_props wattr_cache 11 wprops1).2 [wa0] wprops0
    (by with_unfolding_all decide) (by with_unfolding_all decide)

/-- Claim C6: on an attribute-cache miss, the freshly resolved attribute
set is inserted under the symbolizer-identity key exactly when no
property of the symbolizer is an expression; with any expression-valued
property the fresh result is still used but the cache is left unchanged. -/
theorem C6_attr_insert_iff_no_expression (resolve_fresh : Unit → svg_attribute_t)
    (m : AttrCache) (attr_key : ℕ) (props : properties_t)
    (hmiss : attrCacheLookup m attr_key props = none) :
    ((∀ p ∈ props, is_expression p.2 = false) →
      attribute_resolution resolve_fresh m attr_key props =
        (resolve_fresh (), attrCacheStore m attr_key (resolve_fresh (), props))) ∧
    ((∃ p ∈ props, is_expression p.2 = true) →
      attribute_resolution resolve_fresh m attr_key props = (resolve_fresh (), m)) := by
  constructor
  · intro hall
    unfold attribute_resolution
    rw [hmiss]
    rw [if_pos (by
      rw [List.all_eq_true]
      intro p hp
      rw [hall p hp]
      rfl)]
  · intro hex
    unfold attribute_resolution
    rw [hmiss]
    rw [if_neg (by
      rw [List.all_eq_true]
      intro hall
      obtain ⟨p, hp, hexp⟩ := hex
      have := hall p hp
      rw [hexp] at this
      exact absurd this (by decide))]

/-- Witness for claim C6: a property map with an expression leaves the
concrete cache unchanged while the fresh result is used. -/
theorem C6_attr_insert_iff_no_expression_witness :
    attribute_resolution wresolve [] 11 wprops_expr = (wresolve (), []) :=
  (C6_attr_insert_iff_no_expression wresolve [] 11 wprops_expr
    (by with_unfolding_all decide)).2
    ⟨(2, .expression 0), by with_unfolding_all decide, rfl⟩

/-- Claim C8: a fill or stroke patch whose rendered pixels are all zero
is stored as absent rather than as an all-zero buffer, and compositing an
absent patch issues no effect into the destination; on a cache miss the
effects are exactly the optional blits of the two stored patches. -/
theorem C8_transparent_patch_absent :
    (∀ (rasterize : scratch_args → image_rgba8) (src : svg_storage)
       (a0 : path_attributes) (attrs : List path_attributes)
       (tr_local : trans_affine) (w h : ℤ) (snap : Bool),
      img_all_zero (rasterize
        ⟨disable_stroke attrs, src.bounding_box, tr_local, snap, w, h⟩) = true →
      make_fill_img rasterize src a0 attrs tr_local w h snap = none) ∧
    (∀ (rasterize : scratch_args → image_rgba8) (src : svg_storage)
       (a0 : path_attributes) (attrs : List path_attributes)
       (tr_local : trans_affine) (w h : ℤ) (snap : Bool),
      img_all_zero (rasterize
        ⟨disable_fill attrs, src.bounding_box, tr_local, snap, w, h⟩) = true →
      make_stroke_img rasterize src a0 attrs tr_local w h snap = none) ∧
    (∀ (tr : trans_affine) (params : markers_dispatch_params),
      opt_blit none tr params = []) ∧
    (∀ (rasterize : scratch_args → image_rgba8) (src : svg_storage)
       (a0 : path_attributes) (params : markers_dispatch_params)
       (tr : trans_affine) (cache : ImgCache),
      tr.sx = 1 ∧ tr.sy = 1 ∧ tr.shx = 0 ∧ tr.shy = 0 →
      cFind cache (img_cache_key src a0 tr) = none →
      (render_marker_svg rasterize src [a0] params tr cache).2 =
        opt_blit (make_fill_img rasterize src a0 [a0]
            (local_tr_of tr src (stroke_margin a0))
            (canvas_width_of src (stroke_margin a0))
            (canvas_height_of src (stroke_margin a0)) params.snap_to_pixels)
          (blit_tr_of tr src (stroke_margin a0)) params ++
        opt_blit (make_stroke_img rasterize src a0 [a0]
            (local_tr_of tr src (stroke_margin a0))
            (canvas_width_of src (stroke_margin a0))
            (canvas_height_of src (stroke_margin a0)) params.snap_to_pixels)
          (blit_tr_of tr src (stroke_margin a0)) params) := by
  refine ⟨fun rasterize src a0 attrs tr_local w h snap hz => ?_,
    fun rasterize src a0 attrs tr_local w h snap hz => ?_,
    fun tr params => rfl,
    fun rasterize src a0 params tr cache htr hfind => ?_⟩
  · unfold make_fill_img
    by_cases hfill : a0.fill_flag || a0.fill_gradient != .NO_GRADIENT
    · rw [if_pos hfill]
      simp only [hz, if_true]
    · rw [if_neg hfill]
  · unfold make_stroke_img
    by_cases hstroke : a0.stroke_flag || a0.stroke_gradient != .NO_GRADIENT
    · rw [if_pos hstroke]
      simp only [hz, if_true]
    · rw [if_neg hstroke]
  · rw [render_svg_miss rasterize src a0 params tr cache htr hfind]

/-- Witness for claim C8: the concrete all-zero rasterizer yields an
absent fill patch. -/
theorem C8_transparent_patch_absent_witness :
    make_fill_img wr_zero wsrc0 wa0 [wa0]
      (local_tr_of wtr1 wsrc0 (stroke_margin wa0))
      (canvas_width_of wsrc0 (stroke_margin wa0))
      (canvas_height_of wsrc0 (stroke_margin wa0)) false = none :=
  C8_transparent_patch_absent.1 wr_zero wsrc0 wa0 [wa0]
    (local_tr_of wtr1 wsrc0 (stroke_margin wa0))
    (canvas_width_of wsrc0 (stroke_margin wa0))
    (canvas_height_of wsrc0 (stroke_margin wa0)) false
    (by with_unfolding_all decide)

/-- The rendered-image cache remains sorted by its key order across
render_marker_svg, so the sortedness hypothesis of the eviction theorem
holds in every reachable cache state. -/
theorem render_marker_svg_preserves_sorted (rasterize : scratch_args → image_rgba8)
    (src : svg_storage) (attrs : List path_attributes)
    (params : markers_dispatch_params) (tr : trans_affine) (cache : ImgCache)
    (hp : cache.Pairwise (fun a b => imgKeyLt a.1 b.1 = true)) :
    ((render_marker_svg rasterize src attrs params tr cache).1).Pairwise
      (fun a b => imgKeyLt a.1 b.1 = true) := by
  by_cases hcond : cacheable_cond attrs tr
  · have htr : tr.sx = 1 ∧ tr.sy = 1 ∧ tr.shx = 0 ∧ tr.shy = 0 :=
      ⟨hcond.2.1, hcond.2.2.1, hcond.2.2.2.1, hcond.2.2.2.2⟩
    have hlen := hcond.1
    cases attrs with
    | nil => simp at hlen
    | cons a0 t =>
      cases t with
      | nil =>
          cases hfind : cFind cache (img_cache_key src a0 tr) with
          | some v =>
              rw [render_svg_hit rasterize src a0 params tr cache v htr hfind]
              exact hp
          | none =>
              rw [render_svg_miss rasterize src a0 params tr cache htr hfind]
              exact pairwise_cacheInsert imgKeyLt imgKeyLt_trans imgKeyLt_conn
                cache_size cache _ _ hp
      | cons b t2 => simp at hlen
  · rw [render_svg_eq_fallback rasterize src attrs params tr cache hcond]
    exact hp

/-- The attribute cache remains sorted by the key order across the
attribute resolution phase. -/
theorem attribute_resolution_preserves_sorted (resolve_fresh : Unit → svg_attribute_t)
    (m : AttrCache) (attr_key : ℕ) (props : properties_t)
    (hp : m.Pairwise (fun a b => natLtB a.1 b.1 = true)) :
    ((attribute_resolution resolve_fresh m attr_key props).2).Pairwise
      (fun a b => natLtB a.1 b.1 = true) := by
  unfold attribute_resolution
  cases hl : attrCacheLookup m attr_key props with
  | some r => exact hp
  | none =>
      dsimp only
      by_cases hc : props.all (fun key_prop => !(is_expression key_prop.2))
      · rw [if_pos hc]
        exact pairwise_cacheStore natLtB natLtB_trans natLtB_conn
          attributes_cache_size m attr_key (resolve_fresh (), props) hp
      · rw [if_neg hc]
        exact hp

/-- The ellipse cache remains sorted by the key order across the ellipse
lookup-or-build phase. -/
theorem ellipse_lookup_or_build_preserves_sorted (build : Unit → ℕ)
    (m : EllipseCache) (marker_key : ellipse_key_t)
    (hp : m.Pairwise (fun a b => ellipseKeyLt a.1 b.1 = true)) :
    ((ellipse_lookup_or_build build m marker_key).2).Pairwise
      (fun a b => ellipseKeyLt a.1 b.1 = true) := by
  unfold ellipse_lookup_or_build
  cases hf : cFind m marker_key with
  | some p => exact hp
  | none =>
      exact pairwise_cacheInsert ellipseKeyLt ellipseKeyLt_trans ellipseKeyLt_conn
        ellipses_cache_size m marker_key (build ()) hp

/-- Claim C9: for a polygon whose bounding box has zero width or zero
height, polylabel returns the minimum corner of the bounding box through
the early guard, before any cell is built; the result does not depend on
the square root oracle, the centroid oracle or the loop fuel, showing
that no distance computation or cell subdivision runs on this path. -/
theorem C9_degenerate_bbox_trivial_placement (sqrtFn : Option ℚ → ℚ)
    (centroidFn : polygon → Option point) (fuel : ℕ) (poly : polygon)
    (precision : ℚ)
    (hw : 0 ≤ (envelope poly.exterior_ring).width)
    (hh : 0 ≤ (envelope poly.exterior_ring).height)
    (hzero : (envelope poly.exterior_ring).width = 0 ∨
      (envelope poly.exterior_ring).height = 0) :
    polylabel sqrtFn centroidFn fuel poly precision =
      ⟨(envelope poly.exterior_ring).minx, (envelope poly.exterior_ring).miny⟩ := by
  have hmin : min (envelope poly.exterior_ring).width
      (envelope poly.exterior_ring).height = 0 := by
    rcases hzero with h0 | h0
    · rw [h0]
      exact min_eq_left hh
    · rw [h0]
      exact min_eq_right hw
  unfold polylabel
  rw [if_pos hmin]

/-- Witness polygon: a degenerate vertical segment with zero width. -/
def wpoly0 : polygon := ⟨[⟨0, 0⟩, ⟨0, 5⟩], []⟩

/-- Witness for claim C9: the degenerate polygon is placed at the
bounding box minimum corner, independent of the oracles. -/
theorem C9_degenerate_bbox_trivial_placement_witness :
    polylabel (fun _ => 0) (fun _ => none) 0 wpoly0 1 =
      ⟨(envelope wpoly0.exterior_ring).minx, (envelope wpoly0.exterior_ring).miny⟩ :=
  C9_degenerate_bbox_trivial_placement (fun _ => 0) (fun _ => none) 0 wpoly0 1
    (by with_unfolding_all decide)
    (by with_unfolding_all decide)
    (Or.inl (by with_unfolding_all decide))

/-- Claim C10: a file property that evaluates to the empty string makes
render_markers_symbolizer return with the state untouched, for every
possible marker resolution and rendering behavior, so no marker is
resolved, no cache is consulted or populated and no pixel is written; an
absent file property defaults to the nonempty ellipse sentinel and
proceeds into resolution. -/
theorem C10_empty_filename_skips :
    (∀ (St : Type) (resolve_and_visit : String → St → St) (st : St),
      render_markers_symbolizer resolve_and_visit (some "") st = st) ∧
    get_file none = "shape://ellipse" ∧
    ("shape://ellipse" : String) ≠ "" ∧
    (∀ (St : Type) (resolve_and_visit : String → St → St) (st : St),
      render_markers_symbolizer resolve_and_visit none st =
        resolve_and_visit "shape://ellipse" st) := by
  refine ⟨fun St resolve_and_visit st => ?_, rfl, by decide,
    fun St resolve_and_visit st => ?_⟩
  · unfold render_markers_symbolizer get_file
    simp
  · unfold render_markers_symbolizer get_file
    rw [if_pos (by decide)]
    rfl

end Mapnik
